import Mathlib

/-
  Shallow embedding of the flashcard-quizzer core
  (src/flashcard_quizzer/models.py, quiz.py, strategies.py).

  Strings are modelled as lists of Unicode code points (List Nat).
  Python str.strip() / str.lower() are modelled on the ASCII range
  (the locale-naive behavior the code relies on).
  Python sets of strings are modelled as Finset Str (membership,
  emptiness-truthiness and len are the only operations the code uses).
  The global random generator is modelled by passing the value that
  random.shuffle would produce as an explicit oracle argument.
-/

namespace FlashcardQuizzer

/-- A string as a list of Unicode code points. -/
abbrev Str := List Nat

/-- Helper turning a Lean string literal into its code points. -/
def ascii (s : String) : Str := s.data.map Char.toNat

/-- Python str.lower on one code point (ASCII range). -/
def lowerChar (c : Nat) : Nat := if 65 ≤ c ∧ c ≤ 90 then c + 32 else c

/-- Python str.lower on a whole string. -/
def lowerStr (s : Str) : Str := s.map lowerChar

/-- Python str.strip default whitespace class (ASCII range):
    space, tab, newline, carriage return, vertical tab, form feed. -/
def isSpace (c : Nat) : Bool := c == 32 || c == 9 || c == 10 || c == 13 || c == 11 || c == 12

/-- Drop leading whitespace. -/
def stripLeft (s : Str) : Str := s.dropWhile isSpace

/-- Drop trailing whitespace. -/
def stripRight (s : Str) : Str := (s.reverse.dropWhile isSpace).reverse

/-- Python str.strip(): drop leading and trailing whitespace. -/
def pyStrip (s : Str) : Str := stripRight (stripLeft s)

/-- models.py Flashcard: a term and a definition. -/
structure Flashcard where
  term : Str
  definition : Str
deriving DecidableEq

/-- models.py QuizResult: one answered question. -/
structure QuizResult where
  flashcard : Flashcard
  user_answer : Str
  is_correct : Bool
deriving DecidableEq

/-- models.py SessionStats: running counts and the deduplicated missed terms. -/
structure SessionStats where
  total_questions : Nat
  correct_answers : Nat
  incorrect_answers : Nat
  missed_terms : List Str
deriving DecidableEq

/-- A fresh SessionStats (the dataclass defaults). -/
def SessionStats.start : SessionStats := ⟨0, 0, 0, []⟩

/-- models.py SessionStats.accuracy; Python float arithmetic is modelled
    exactly over the rationals. -/
def SessionStats.accuracy (s : SessionStats) : ℚ :=
  if s.total_questions = 0 then 0
  else ((s.correct_answers : ℚ) / (s.total_questions : ℚ)) * 100

/-- models.py SessionStats.record_answer: increment total, then one of the
    two outcome counters; on a miss, append the term when non-empty
    (Python truthiness) and not yet present. -/
def SessionStats.record_answer (s : SessionStats) (ok : Bool) (term : Str) : SessionStats :=
  let s1 : SessionStats := { s with total_questions := s.total_questions + 1 }
  if ok then { s1 with correct_answers := s1.correct_answers + 1 }
  else
    { s1 with
      incorrect_answers := s1.incorrect_answers + 1,
      missed_terms :=
        if term ≠ [] ∧ term ∉ s1.missed_terms then s1.missed_terms ++ [term]
        else s1.missed_terms }

/-- quiz.py QuizEngine.check_answer: strip and lowercase both the stored
    definition and the submitted answer, then compare. -/
def check_answer (card : Flashcard) (user_answer : Str) : Bool :=
  lowerStr (pyStrip card.definition) == lowerStr (pyStrip user_answer)

/-- strategies.py SequentialStrategy.get_next_flashcard:
    flashcards[len(results)]; an out-of-range index (Python IndexError)
    is modelled as none. -/
def seq_get_next (flashcards : List Flashcard) (results : List QuizResult) : Option Flashcard :=
  flashcards[results.length]?

/-- strategies.py SequentialStrategy.has_more_questions. -/
def seq_has_more (flashcards : List Flashcard) (results : List QuizResult) : Bool :=
  results.length < flashcards.length

/-- strategies.py RandomStrategy instance state. -/
structure RState where
  shuffled_indices : List Nat
  inited : Bool
deriving DecidableEq

/-- The fresh RandomStrategy state built by its constructor. -/
def RState.fresh : RState := ⟨[], false⟩

/-- strategies.py RandomStrategy initialization of the shuffle, guarded by
    the flag; perm is the oracle value random.shuffle(range(n)) produces. -/
def random_setup (perm : List Nat) (s : RState) : RState :=
  if s.inited then s else ⟨perm, true⟩

/-- strategies.py RandomStrategy.get_next_flashcard:
    flashcards[shuffled_indices[len(results)]], after lazy setup. -/
def random_get_next (perm : List Nat) (s : RState)
    (flashcards : List Flashcard) (results : List QuizResult) :
    Option Flashcard × RState :=
  let s1 := random_setup perm s
  match s1.shuffled_indices[results.length]? with
  | some i => (flashcards[i]?, s1)
  | none => (none, s1)

/-- strategies.py RandomStrategy.has_more_questions: after lazy setup,
    len(results) less than len(flashcards). -/
def random_has_more (perm : List Nat) (s : RState)
    (flashcards : List Flashcard) (results : List QuizResult) :
    Bool × RState :=
  (decide (results.length < flashcards.length), random_setup perm s)

/-- strategies.py AdaptiveStrategy instance state. -/
structure AState where
  correct_terms : Finset Str
  incorrect_terms : Finset Str
  pending_cards : List Flashcard
  inited : Bool
deriving DecidableEq

/-- The fresh AdaptiveStrategy state built by its constructor. -/
def AState.fresh : AState := ⟨∅, ∅, [], false⟩

/-- strategies.py AdaptiveStrategy lazy setup; sh is the oracle value
    random.shuffle(flashcards.copy()) produces. -/
def adaptive_setup (sh : List Flashcard) (s : AState) : AState :=
  if s.inited then s else { s with pending_cards := sh, inited := true }

/-- One step of the tracking update both Adaptive operations perform:
    a correct outcome adds the term to correct_terms and discards it from
    incorrect_terms; an incorrect one adds it to incorrect_terms. -/
def foldStep (ci : Finset Str × Finset Str) (r : QuizResult) : Finset Str × Finset Str :=
  if r.is_correct then (insert r.flashcard.term ci.1, ci.2.erase r.flashcard.term)
  else (ci.1, insert r.flashcard.term ci.2)

/-- The pair of tracking sets obtained by folding a whole outcome log
    from empty sets (first component: terms ever answered correctly;
    second: terms whose latest outcome is wrong). -/
def foldCI (results : List QuizResult) : Finset Str × Finset Str :=
  results.foldl foldStep (∅, ∅)

/-- strategies.py AdaptiveStrategy.get_next_flashcard: lazy setup, fold the
    last result (if any) into the tracking sets, then pick the first pending
    card with term in incorrect_terms when that set is non-empty, else the
    first pending card with term not in correct_terms, else pending[0]
    (an empty pending list raising IndexError is modelled as none). -/
def adaptive_get_next (sh : List Flashcard) (s : AState)
    (flashcards : List Flashcard) (results : List QuizResult) :
    Option Flashcard × AState :=
  let s1 := adaptive_setup sh s
  let ci : Finset Str × Finset Str :=
    match results.getLast? with
    | some r => foldStep (s1.correct_terms, s1.incorrect_terms) r
    | none => (s1.correct_terms, s1.incorrect_terms)
  let s2 : AState := { s1 with correct_terms := ci.1, incorrect_terms := ci.2 }
  let rule2 : Option Flashcard :=
    match s2.pending_cards.find? (fun c => decide (c.term ∉ s2.correct_terms)) with
    | some c => some c
    | none => s2.pending_cards.head?
  let pick : Option Flashcard :=
    if s2.incorrect_terms = ∅ then rule2
    else
      match s2.pending_cards.find? (fun c => decide (c.term ∈ s2.incorrect_terms)) with
      | some c => some c
      | none => rule2
  (pick, s2)

/-- strategies.py AdaptiveStrategy.has_more_questions: lazy setup, fold the
    whole outcome log into the tracking sets, then compare the number of
    terms ever answered correctly with the number of cards. -/
def adaptive_has_more (sh : List Flashcard) (s : AState)
    (flashcards : List Flashcard) (results : List QuizResult) :
    Bool × AState :=
  let s1 := adaptive_setup sh s
  let ci := results.foldl foldStep (s1.correct_terms, s1.incorrect_terms)
  let s2 : AState := { s1 with correct_terms := ci.1, incorrect_terms := ci.2 }
  (decide (s2.correct_terms.card < flashcards.length), s2)

/-- The closed set of strategies the repository defines, with their
    instance-private state. -/
inductive StratState where
  | seq : StratState
  | rand : RState → StratState
  | adapt : AState → StratState
deriving DecidableEq

/-- Oracle values standing for what random.shuffle would produce:
    the index permutation the RandomStrategy draws, and the shuffled
    card copy the AdaptiveStrategy draws. -/
structure Oracle where
  perm : List Nat
  shuffled : List Flashcard

/-- Dispatch of has_more_questions over the three strategies. -/
def strat_has_more (o : Oracle) (st : StratState)
    (flashcards : List Flashcard) (results : List QuizResult) :
    Bool × StratState :=
  match st with
  | .seq => (seq_has_more flashcards results, .seq)
  | .rand s =>
    let p := random_has_more o.perm s flashcards results
    (p.1, .rand p.2)
  | .adapt s =>
    let p := adaptive_has_more o.shuffled s flashcards results
    (p.1, .adapt p.2)

/-- Dispatch of get_next_flashcard over the three strategies. -/
def strat_get_next (o : Oracle) (st : StratState)
    (flashcards : List Flashcard) (results : List QuizResult) :
    Option Flashcard × StratState :=
  match st with
  | .seq => (seq_get_next flashcards results, .seq)
  | .rand s =>
    let p := random_get_next o.perm s flashcards results
    (p.1, .rand p.2)
  | .adapt s =>
    let p := adaptive_get_next o.shuffled s flashcards results
    (p.1, .adapt p.2)

/-- Errors the engine layer can raise: StopIteration from
    get_next_question, and a strategy-level IndexError. -/
inductive QuizError where
  | exhausted : QuizError
  | indexErr : QuizError
deriving DecidableEq

/-- quiz.py QuizEngine state: the card set, the strategy, the append-only
    result log and the session stats. -/
structure Engine where
  flashcards : List Flashcard
  strategy : StratState
  results : List QuizResult
  stats : SessionStats
deriving DecidableEq

/-- quiz.py QuizEngine constructor: rejects an empty card list
    (ValueError, modelled as none). -/
def mkEngine (flashcards : List Flashcard) (st : StratState) : Option Engine :=
  if flashcards.isEmpty then none
  else some ⟨flashcards, st, [], SessionStats.start⟩

/-- quiz.py QuizEngine.has_next_question: delegates to the strategy
    (whose private state may be lazily set up by the call). -/
def Engine.has_next (o : Oracle) (e : Engine) : Bool × Engine :=
  let p := strat_has_more o e.strategy e.flashcards e.results
  (p.1, { e with strategy := p.2 })

/-- quiz.py QuizEngine.get_next_question: raise StopIteration when
    has_next_question is false, otherwise delegate to the strategy. -/
def Engine.get_next (o : Oracle) (e : Engine) : Except QuizError Flashcard × Engine :=
  let p := e.has_next o
  if p.1 then
    match strat_get_next o p.2.strategy p.2.flashcards p.2.results with
    | (some c, st) => (.ok c, { p.2 with strategy := st })
    | (none, st) => (.error .indexErr, { p.2 with strategy := st })
  else (.error .exhausted, p.2)

/-- quiz.py QuizEngine.submit_answer: check the answer, build the result,
    append it to the log, record it in the stats, return it. -/
def Engine.submit_answer (e : Engine) (card : Flashcard) (user_answer : Str) :
    QuizResult × Engine :=
  let ok := check_answer card user_answer
  let r : QuizResult := ⟨card, user_answer, ok⟩
  (r, { e with
        results := e.results ++ [r],
        stats := e.stats.record_answer ok card.term })

/-- quiz.py QuizEngine.get_stats. -/
def Engine.get_stats (e : Engine) : SessionStats := e.stats

/-- quiz.py QuizEngine.get_feedback. -/
def Engine.get_feedback (r : QuizResult) : Str :=
  if r.is_correct then ascii "✓ Correct!"
  else
    ascii "✗ Incorrect.\nYour answer: " ++ r.user_answer
      ++ ascii "\nCorrect answer: " ++ r.flashcard.definition

/-- strategies.py get_strategy: the factory dictionary lookup; an unknown
    mode raises ValueError whose message names the mode. -/
def get_strategy (mode : Str) : Except Str StratState :=
  if mode = ascii "sequential" then .ok .seq
  else if mode = ascii "random" then .ok (.rand RState.fresh)
  else if mode = ascii "adaptive" then .ok (.adapt AState.fresh)
  else .error (ascii "Invalid mode: " ++ mode
    ++ ascii ". Must be one of: sequential, random, adaptive")

/-- A full Sequential session loop (the Runner shape): while
    has_more_questions, fetch the next card, answer it with ans, append the
    outcome. Returns the presented cards and the final log; fuel bounds the
    iteration. -/
def seq_run_aux (flashcards : List Flashcard) (ans : Flashcard → Str) :
    Nat → List QuizResult → List Flashcard × List QuizResult
  | 0, results => ([], results)
  | fuel + 1, results =>
    if seq_has_more flashcards results then
      match seq_get_next flashcards results with
      | some c =>
        let r : QuizResult := ⟨c, ans c, check_answer c (ans c)⟩
        let p := seq_run_aux flashcards ans fuel (results ++ [r])
        (c :: p.1, p.2)
      | none => ([], results)
    else ([], results)

/-- A full Sequential session from an empty log. -/
def seq_run (flashcards : List Flashcard) (ans : Flashcard → Str) :
    List Flashcard × List QuizResult :=
  seq_run_aux flashcards ans flashcards.length []

/-- A full Random session loop on one strategy instance, threading the
    instance state. -/
def rand_run_aux (perm : List Nat) (flashcards : List Flashcard)
    (ans : Flashcard → Str) :
    Nat → RState → List QuizResult → List Flashcard × List QuizResult × RState
  | 0, s, results => ([], results, s)
  | fuel + 1, s, results =>
    let q := random_has_more perm s flashcards results
    if q.1 then
      match random_get_next perm q.2 flashcards results with
      | (some c, s1) =>
        let r : QuizResult := ⟨c, ans c, check_answer c (ans c)⟩
        let p := rand_run_aux perm flashcards ans fuel s1 (results ++ [r])
        (c :: p.1, p.2)
      | (none, s1) => ([], results, s1)
    else ([], results, q.2)

/-- A full Random session on a fresh instance from an empty log. -/
def rand_run (perm : List Nat) (flashcards : List Flashcard)
    (ans : Flashcard → Str) : List Flashcard × List QuizResult × RState :=
  rand_run_aux perm flashcards ans flashcards.length RState.fresh []

/-! Helper lemmas about the answer normalization. -/

lemma isSpace_iff (c : Nat) :
    isSpace c = true ↔ (c = 32 ∨ c = 9 ∨ c = 10 ∨ c = 13 ∨ c = 11 ∨ c = 12) := by
  simp only [isSpace, Bool.or_eq_true, beq_iff_eq]
  omega

lemma isSpace_eq_of_lowerChar_eq {a b : Nat} (h : lowerChar a = lowerChar b) :
    isSpace a = isSpace b := by
  unfold lowerChar at h
  rw [Bool.eq_iff_iff, isSpace_iff, isSpace_iff]
  by_cases h1 : 65 ≤ a ∧ a ≤ 90
  · by_cases h2 : 65 ≤ b ∧ b ≤ 90
    · rw [if_pos h1, if_pos h2] at h
      omega
    · rw [if_pos h1, if_neg h2] at h
      omega
  · by_cases h2 : 65 ≤ b ∧ b ≤ 90
    · rw [if_neg h1, if_pos h2] at h
      omega
    · rw [if_neg h1, if_neg h2] at h
      omega

lemma forall2_lower_dropWhile {l₁ l₂ : Str}
    (h : List.Forall₂ (fun a b => lowerChar a = lowerChar b) l₁ l₂) :
    List.Forall₂ (fun a b => lowerChar a = lowerChar b)
      (l₁.dropWhile isSpace) (l₂.dropWhile isSpace) := by
  induction h with
  | nil => simp
  | @cons a b t₁ t₂ hab htail ih =>
    rw [List.dropWhile_cons, List.dropWhile_cons, isSpace_eq_of_lowerChar_eq hab]
    by_cases hsp : isSpace b = true
    · simp only [hsp, if_true]
      exact ih
    · simp only [hsp, if_false]
      exact List.Forall₂.cons hab htail

lemma forall2_lower_pyStrip {l₁ l₂ : Str}
    (h : List.Forall₂ (fun a b => lowerChar a = lowerChar b) l₁ l₂) :
    List.Forall₂ (fun a b => lowerChar a = lowerChar b) (pyStrip l₁) (pyStrip l₂) := by
  unfold pyStrip stripLeft stripRight
  rw [List.forall₂_reverse_iff]
  apply forall2_lower_dropWhile
  rw [List.forall₂_reverse_iff]
  exact forall2_lower_dropWhile h

lemma map_lower_eq_of_forall2 {l₁ l₂ : Str}
    (h : List.Forall₂ (fun a b => lowerChar a = lowerChar b) l₁ l₂) :
    l₁.map lowerChar = l₂.map lowerChar := by
  induction h with
  | nil => rfl
  | cons hab _ ih => simp [hab, ih]

lemma dropWhile_append_spaces {w s : Str} (hw : ∀ c ∈ w, isSpace c = true) :
    (w ++ s).dropWhile isSpace = s.dropWhile isSpace := by
  induction w with
  | nil => rfl
  | cons a w ih =>
    rw [List.cons_append, List.dropWhile_cons, if_pos (hw a (by simp))]
    exact ih fun c hc => hw c (by simp [hc])

lemma dropWhile_spaces_eq_nil {w : Str} (hw : ∀ c ∈ w, isSpace c = true) :
    w.dropWhile isSpace = [] := by
  have h := dropWhile_append_spaces (s := []) hw
  simpa using h

lemma stripRight_append_spaces {s w : Str} (hw : ∀ c ∈ w, isSpace c = true) :
    stripRight (s ++ w) = stripRight s := by
  unfold stripRight
  rw [List.reverse_append, dropWhile_append_spaces]
  intro c hc
  exact hw c (by simpa using hc)

lemma pyStrip_pad {w₁ w₂ s : Str} (h1 : ∀ c ∈ w₁, isSpace c = true)
    (h2 : ∀ c ∈ w₂, isSpace c = true) :
    pyStrip (w₁ ++ s ++ w₂) = pyStrip s := by
  unfold pyStrip stripLeft
  rw [List.append_assoc, dropWhile_append_spaces h1, List.dropWhile_append]
  by_cases hs : (s.dropWhile isSpace).isEmpty
  · rw [if_pos hs, dropWhile_spaces_eq_nil h2]
    rw [List.isEmpty_iff] at hs
    rw [hs]
  · rw [if_neg hs]
    exact stripRight_append_spaces h2

/-- C2: check_answer is true exactly when the trimmed, lowercased answer
    equals the trimmed, lowercased definition; it is invariant under adding
    leading and trailing whitespace to the answer and under changing the
    answer's letter case (any answer whose characters agree after
    lowercasing gives the same verdict). -/
theorem check_answer_spec (card : Flashcard) (a : Str) :
    (check_answer card a = true ↔
      lowerStr (pyStrip a) = lowerStr (pyStrip card.definition)) ∧
    (∀ w₁ w₂ : Str, (∀ c ∈ w₁, isSpace c = true) → (∀ c ∈ w₂, isSpace c = true) →
      check_answer card (w₁ ++ a ++ w₂) = check_answer card a) ∧
    (∀ b : Str, List.Forall₂ (fun x y => lowerChar x = lowerChar y) a b →
      check_answer card b = check_answer card a) := by
  refine ⟨?_, ?_, ?_⟩
  · unfold check_answer
    rw [beq_iff_eq]
    exact eq_comm
  · intro w₁ w₂ h1 h2
    unfold check_answer
    rw [pyStrip_pad h1 h2]
  · intro b hab
    unfold check_answer lowerStr
    rw [map_lower_eq_of_forall2 (forall2_lower_pyStrip hab)]

/-- Witness for check_answer_spec: on the DNS card, padding the answer with
    spaces and uppercasing it both leave the verdict unchanged. -/
theorem check_answer_spec_witness :
    check_answer ⟨ascii "DNS", ascii "Domain Name System"⟩
        ([32, 32] ++ ascii "Domain Name System" ++ [32, 32])
      = check_answer ⟨ascii "DNS", ascii "Domain Name System"⟩
          (ascii "Domain Name System") ∧
    check_answer ⟨ascii "DNS", ascii "Domain Name System"⟩
        (ascii "DOMAIN NAME SYSTEM")
      = check_answer ⟨ascii "DNS", ascii "Domain Name System"⟩
          (ascii "Domain Name System") :=
  ⟨(check_answer_spec ⟨ascii "DNS", ascii "Domain Name System"⟩
      (ascii "Domain Name System")).2.1 [32, 32] [32, 32] (by decide) (by decide),
   (check_answer_spec ⟨ascii "DNS", ascii "Domain Name System"⟩
      (ascii "Domain Name System")).2.2 (ascii "DOMAIN NAME SYSTEM") (by decide)⟩

/-- The SessionStats reached by recording a list of (correct?, term)
    outcomes on a fresh tracker. -/
def statsOf (outcomes : List (Bool × Str)) : SessionStats :=
  outcomes.foldl (fun s p => s.record_answer p.1 p.2) SessionStats.start

lemma record_counts (s : SessionStats) (ok : Bool) (term : Str) :
    (s.record_answer ok term).total_questions = s.total_questions + 1 ∧
    (s.record_answer ok term).correct_answers
      = s.correct_answers + (if ok then 1 else 0) ∧
    (s.record_answer ok term).incorrect_answers
      = s.incorrect_answers + (if ok then 0 else 1) := by
  unfold SessionStats.record_answer
  cases ok <;> simp

lemma statsOf_counts (outcomes : List (Bool × Str)) : ∀ s : SessionStats,
    (outcomes.foldl (fun s p => s.record_answer p.1 p.2) s).total_questions
      = s.total_questions + outcomes.length ∧
    (outcomes.foldl (fun s p => s.record_answer p.1 p.2) s).correct_answers
      = s.correct_answers + outcomes.countP (fun p => p.1) := by
  induction outcomes with
  | nil => intro s; simp
  | cons p t ih =>
    intro s
    rw [List.foldl_cons]
    rcases ih (s.record_answer p.1 p.2) with ⟨h1, h2⟩
    rcases record_counts s p.1 p.2 with ⟨g1, g2, _⟩
    constructor
    · rw [h1, g1, List.length_cons]
      omega
    · rw [h2, g2, List.countP_cons]
      cases hp : p.1 <;> (simp [hp]; try omega)

/-- C8: after recording any sequence of outcomes, accuracy is exactly
    (number correct) / (number recorded) * 100, and 0 when nothing was
    recorded; Python float arithmetic is modelled exactly over ℚ. -/
theorem accuracy_spec (outcomes : List (Bool × Str)) :
    (statsOf outcomes).accuracy =
      if outcomes.length = 0 then 0
      else ((outcomes.countP (fun p => p.1) : ℚ) / (outcomes.length : ℚ)) * 100 := by
  rcases statsOf_counts outcomes SessionStats.start with ⟨h1, h2⟩
  unfold statsOf SessionStats.accuracy
  rw [h1, h2]
  simp [SessionStats.start]

/-- C9: the factory returns a fresh Sequential, Random or Adaptive instance
    exactly for the lowercase mode names sequential, random, adaptive, and
    otherwise fails with a ValueError naming the invalid mode; matching is
    case-sensitive. -/
theorem get_strategy_spec (mode : Str) :
    (mode = ascii "sequential" → get_strategy mode = .ok .seq) ∧
    (mode = ascii "random" → get_strategy mode = .ok (.rand RState.fresh)) ∧
    (mode = ascii "adaptive" → get_strategy mode = .ok (.adapt AState.fresh)) ∧
    (mode ≠ ascii "sequential" → mode ≠ ascii "random" → mode ≠ ascii "adaptive" →
      get_strategy mode = .error (ascii "Invalid mode: " ++ mode
        ++ ascii ". Must be one of: sequential, random, adaptive")) := by
  refine ⟨?_, ?_, ?_, ?_⟩
  · intro h
    simp [get_strategy, h]
  · intro h
    rw [h]
    rfl
  · intro h
    rw [h]
    rfl
  · intro h1 h2 h3
    simp [get_strategy, h1, h2, h3]

/-- Witness for get_strategy_spec: the capitalized mode name Sequential is
    rejected with a ValueError naming it, and the exact lowercase names are
    accepted. -/
theorem get_strategy_spec_witness :
    get_strategy (ascii "Sequential")
      = .error (ascii "Invalid mode: " ++ ascii "Sequential"
          ++ ascii ". Must be one of: sequential, random, adaptive") ∧
    get_strategy (ascii "sequential") = .ok .seq ∧
    get_strategy (ascii "random") = .ok (.rand RState.fresh) ∧
    get_strategy (ascii "adaptive") = .ok (.adapt AState.fresh) :=
  ⟨(get_strategy_spec (ascii "Sequential")).2.2.2 (by decide) (by decide) (by decide),
   (get_strategy_spec (ascii "sequential")).1 rfl,
   (get_strategy_spec (ascii "random")).2.1 rfl,
   (get_strategy_spec (ascii "adaptive")).2.2.1 rfl⟩

lemma seq_run_aux_spec (flashcards : List Flashcard) (ans : Flashcard → Str) :
    ∀ (fuel : Nat) (results : List QuizResult),
    results.length + fuel = flashcards.length →
    (seq_run_aux flashcards ans fuel results).1 = flashcards.drop results.length ∧
    (seq_run_aux flashcards ans fuel results).2.length = flashcards.length := by
  intro fuel
  induction fuel with
  | zero =>
    intro results h
    have hlen : results.length = flashcards.length := by omega
    rw [seq_run_aux]
    constructor
    · rw [hlen, List.drop_length]
    · exact hlen
  | succ fuel ih =>
    intro results h
    have hlt : results.length < flashcards.length := by omega
    have hmore : seq_has_more flashcards results = true := by
      simp [seq_has_more, hlt]
    have hnext : seq_get_next flashcards results = some flashcards[results.length] := by
      simp [seq_get_next, List.getElem?_eq_getElem hlt]
    rw [seq_run_aux, hmore, if_pos rfl, hnext]
    have hrec := ih (results ++ [⟨flashcards[results.length],
      ans flashcards[results.length],
      check_answer flashcards[results.length] (ans flashcards[results.length])⟩])
      (by rw [List.length_append]; simpa using by omega)
    refine ⟨?_, by simpa using hrec.2⟩
    simp only []
    rw [hrec.1, List.length_append]
    simp only [List.length_cons, List.length_nil]
    rw [List.drop_eq_getElem_cons hlt]

/-- C4: the Sequential strategy serves flashcards[len(results)] while
    len(results) is less than len(flashcards), reports more questions
    exactly while that inequality holds, and a full session that answers
    each presented card once presents every card exactly once in original
    order and then reports no more questions. -/
theorem sequential_strategy_spec (flashcards : List Flashcard)
    (ans : Flashcard → Str) (results : List QuizResult)
    (hne : flashcards ≠ []) :
    (seq_has_more flashcards results
      = decide (results.length < flashcards.length)) ∧
    (∀ h : results.length < flashcards.length,
      seq_get_next flashcards results = some (flashcards.get ⟨results.length, h⟩)) ∧
    ((seq_run flashcards ans).1 = flashcards) ∧
    (seq_has_more flashcards (seq_run flashcards ans).2 = false) := by
  have hrun := seq_run_aux_spec flashcards ans flashcards.length [] (by simp)
  refine ⟨rfl, ?_, ?_, ?_⟩
  · intro h
    simp [seq_get_next, List.getElem?_eq_getElem h, List.get_eq_getElem]
  · rw [seq_run]
    rw [hrun.1]
    simp
  · rw [seq_run]
    simp [seq_has_more, hrun.2]

/-- Witness for sequential_strategy_spec on a concrete three-card set:
    the full session presents the cards in order and then stops. -/
theorem sequential_strategy_spec_witness :
    (seq_run [⟨[65], [97]⟩, ⟨[66], [98]⟩, ⟨[67], [99]⟩] (fun _ => [97])).1
      = [⟨[65], [97]⟩, ⟨[66], [98]⟩, ⟨[67], [99]⟩] ∧
    seq_get_next [⟨[65], [97]⟩, ⟨[66], [98]⟩, ⟨[67], [99]⟩] [] = some ⟨[65], [97]⟩ := by
  have h := sequential_strategy_spec [⟨[65], [97]⟩, ⟨[66], [98]⟩, ⟨[67], [99]⟩]
    (fun _ => [97]) [] (by decide)
  exact ⟨h.2.2.1, (h.2.1 (by decide)).trans (by decide)⟩

/-- C3: submit_answer computes correctness via check_answer, appends exactly
    that one outcome to the log, increments the total, increments the correct
    counter on a hit, and on a miss increments the incorrect counter and
    appends the term to missed_terms only when it is not already present;
    a missed-terms list without duplicates stays without duplicates. -/
theorem submit_answer_spec (e : Engine) (card : Flashcard) (a : Str) :
    ((e.submit_answer card a).1 = ⟨card, a, check_answer card a⟩) ∧
    ((e.submit_answer card a).2.results
      = e.results ++ [⟨card, a, check_answer card a⟩]) ∧
    ((e.submit_answer card a).2.stats.total_questions
      = e.stats.total_questions + 1) ∧
    (check_answer card a = true →
      (e.submit_answer card a).2.stats.correct_answers
          = e.stats.correct_answers + 1 ∧
      (e.submit_answer card a).2.stats.incorrect_answers
          = e.stats.incorrect_answers ∧
      (e.submit_answer card a).2.stats.missed_terms = e.stats.missed_terms) ∧
    (check_answer card a = false →
      (e.submit_answer card a).2.stats.incorrect_answers
          = e.stats.incorrect_answers + 1 ∧
      (e.submit_answer card a).2.stats.correct_answers
          = e.stats.correct_answers ∧
      ((e.submit_answer card a).2.stats.missed_terms = e.stats.missed_terms ∨
        (card.term ∉ e.stats.missed_terms ∧
          (e.submit_answer card a).2.stats.missed_terms
            = e.stats.missed_terms ++ [card.term]))) ∧
    (e.stats.missed_terms.Nodup →
      (e.submit_answer card a).2.stats.missed_terms.Nodup) := by
  cases hok : check_answer card a
  · refine ⟨?_, ?_, ?_, ?_, ?_, ?_⟩
    · simp [Engine.submit_answer, hok]
    · simp [Engine.submit_answer, hok]
    · simp [Engine.submit_answer, SessionStats.record_answer, hok]
    · intro h
      simp at h
    · intro _
      refine ⟨?_, ?_, ?_⟩
      · simp [Engine.submit_answer, SessionStats.record_answer, hok]
      · simp [Engine.submit_answer, SessionStats.record_answer, hok]
      · by_cases hmem : card.term ≠ [] ∧ card.term ∉ e.stats.missed_terms
        · right
          refine ⟨hmem.2, ?_⟩
          simp [Engine.submit_answer, SessionStats.record_answer, hok, hmem]
        · left
          simp [Engine.submit_answer, SessionStats.record_answer, hok, hmem]
    · intro hnd
      by_cases hmem : card.term ≠ [] ∧ card.term ∉ e.stats.missed_terms
      · have hnd2 : (e.stats.missed_terms ++ [card.term]).Nodup := by
          rw [List.nodup_append]
          refine ⟨hnd, List.nodup_singleton _, ?_⟩
          intro x hx hx2
          simp only [List.mem_singleton] at hx2
          exact hmem.2 (hx2 ▸ hx)
        simpa [Engine.submit_answer, SessionStats.record_answer, hok, hmem] using hnd2
      · simpa [Engine.submit_answer, SessionStats.record_answer, hok, hmem] using hnd
  · refine ⟨?_, ?_, ?_, ?_, ?_, ?_⟩
    · simp [Engine.submit_answer, hok]
    · simp [Engine.submit_answer, hok]
    · simp [Engine.submit_answer, SessionStats.record_answer, hok]
    · intro _
      refine ⟨?_, ?_, ?_⟩ <;> simp [Engine.submit_answer, SessionStats.record_answer, hok]
    · intro h
      simp at h
    · intro hnd
      simpa [Engine.submit_answer, SessionStats.record_answer, hok] using hnd

/-- Witness for submit_answer_spec: a wrong answer on a concrete engine
    appends the outcome, bumps the incorrect counter and keeps the missed
    list duplicate-free. -/
theorem submit_answer_spec_witness :
    (Engine.submit_answer ⟨[⟨[65], [97]⟩], .seq, [], SessionStats.start⟩
        ⟨[65], [97]⟩ [98]).2.stats.incorrect_answers = 0 + 1 ∧
    (Engine.submit_answer ⟨[⟨[65], [97]⟩], .seq, [], SessionStats.start⟩
        ⟨[65], [97]⟩ [98]).2.stats.missed_terms.Nodup := by
  have h := submit_answer_spec ⟨[⟨[65], [97]⟩], .seq, [], SessionStats.start⟩
    ⟨[65], [97]⟩ [98]
  exact ⟨(h.2.2.2.2.1 (by decide)).1, h.2.2.2.2.2 (by decide)⟩

/-! Frame lemmas for the engine question operations: neither
    has_next_question nor get_next_question touches the log or the stats. -/

lemma has_next_frame (o : Oracle) (e : Engine) :
    (e.has_next o).2.results = e.results ∧
    (e.has_next o).2.stats = e.stats ∧
    (e.has_next o).2.flashcards = e.flashcards := by
  unfold Engine.has_next
  exact ⟨rfl, rfl, rfl⟩

lemma get_next_frame (o : Oracle) (e : Engine) :
    (e.get_next o).2.results = e.results ∧
    (e.get_next o).2.stats = e.stats := by
  unfold Engine.get_next
  rcases has_next_frame o e with ⟨h1, h2, _⟩
  by_cases hb : (e.has_next o).1
  · rw [if_pos hb]
    rcases hm : strat_get_next o (e.has_next o).2.strategy (e.has_next o).2.flashcards
        (e.has_next o).2.results with ⟨oc, st⟩
    cases oc <;> simp [hm, h1, h2]
  · rw [if_neg hb]
    exact ⟨h1, h2⟩

/-- C7: get_next_question fails with the exhausted error (StopIteration)
    exactly when has_next_question is false, otherwise returns whatever the
    strategy serves; in both cases the outcome log and the stats are left
    unchanged (only strategy-private state may move). -/
theorem next_question_spec (o : Oracle) (e : Engine) :
    ((e.get_next o).2.results = e.results ∧ (e.get_next o).2.stats = e.stats) ∧
    ((e.has_next o).1 = false → (e.get_next o).1 = .error .exhausted) ∧
    ((e.has_next o).1 = true →
      (e.get_next o).1 =
        (strat_get_next o (e.has_next o).2.strategy e.flashcards e.results).1.elim
          (.error .indexErr) .ok) := by
  refine ⟨get_next_frame o e, ?_, ?_⟩
  · intro hb
    unfold Engine.get_next
    rw [if_neg (by simp [hb])]
  · intro hb
    unfold Engine.get_next
    rw [if_pos hb]
    rcases has_next_frame o e with ⟨h1, _, h3⟩
    rw [h1, h3]
    rcases hm : strat_get_next o (e.has_next o).2.strategy e.flashcards e.results
      with ⟨oc, st⟩
    cases oc <;> simp

/-- Witness for next_question_spec: on a fresh one-card sequential engine
    the next question is that card; after one submitted answer the engine is
    exhausted and get_next_question fails, leaving log and stats unchanged. -/
theorem next_question_spec_witness :
    (Engine.get_next ⟨[], []⟩ ⟨[⟨[65], [97]⟩], .seq, [], SessionStats.start⟩).1
      = .ok ⟨[65], [97]⟩ ∧
    (Engine.get_next ⟨[], []⟩
        ⟨[⟨[65], [97]⟩], .seq, [⟨⟨[65], [97]⟩, [97], true⟩], SessionStats.start⟩).1
      = .error .exhausted ∧
    (Engine.get_next ⟨[], []⟩
        ⟨[⟨[65], [97]⟩], .seq, [⟨⟨[65], [97]⟩, [97], true⟩], SessionStats.start⟩).2.results
      = [⟨⟨[65], [97]⟩, [97], true⟩] := by
  refine ⟨?_, ?_, ?_⟩
  · have h := (next_question_spec ⟨[], []⟩
      ⟨[⟨[65], [97]⟩], .seq, [], SessionStats.start⟩).2.2 rfl
    exact h.trans rfl
  · exact (next_question_spec ⟨[], []⟩
      ⟨[⟨[65], [97]⟩], .seq, [⟨⟨[65], [97]⟩, [97], true⟩], SessionStats.start⟩).2.1 rfl
  · exact (next_question_spec ⟨[], []⟩
      ⟨[⟨[65], [97]⟩], .seq, [⟨⟨[65], [97]⟩, [97], true⟩], SessionStats.start⟩).1.1

/-- The engine bookkeeping invariant: the stats total equals the sum of the
    two outcome counters and equals the length of the outcome log. -/
def statsInv (e : Engine) : Prop :=
  e.stats.total_questions = e.stats.correct_answers + e.stats.incorrect_answers ∧
  e.stats.total_questions = e.results.length

/-- Apply a finite sequence of submit_answer calls to an engine. -/
def runSubmits (e : Engine) (calls : List (Flashcard × Str)) : Engine :=
  calls.foldl (fun e p => (e.submit_answer p.1 p.2).2) e

lemma submit_preserves_inv {e : Engine} (card : Flashcard) (a : Str)
    (h : statsInv e) : statsInv (e.submit_answer card a).2 := by
  rcases h with ⟨h1, h2⟩
  unfold Engine.submit_answer SessionStats.record_answer
  cases hok : check_answer card a <;>
    refine ⟨by simp; omega, by simp; omega⟩

lemma runSubmits_preserves_inv (calls : List (Flashcard × Str)) :
    ∀ e : Engine, statsInv e → statsInv (runSubmits e calls) := by
  induction calls with
  | nil => intro e h; exact h
  | cons p t ih =>
    intro e h
    rw [runSubmits, List.foldl_cons]
    exact ih _ (submit_preserves_inv p.1 p.2 h)

/-- C10: an engine built on a non-empty card set satisfies the counts
    invariant after any finite sequence of submit_answer calls, and each of
    has_next_question, get_next_question and submit_answer preserves it
    (check_answer, get_stats and get_feedback are pure functions that do not
    produce an engine, so there is nothing for them to disturb). -/
theorem engine_counts_invariant (flashcards : List Flashcard) (st : StratState)
    (calls : List (Flashcard × Str)) (e : Engine) (o : Oracle)
    (card : Flashcard) (a : Str) :
    (mkEngine flashcards st = some e → statsInv (runSubmits e calls)) ∧
    (statsInv e →
      statsInv (e.has_next o).2 ∧
      statsInv (e.get_next o).2 ∧
      statsInv (e.submit_answer card a).2) := by
  constructor
  · intro hmk
    unfold mkEngine at hmk
    by_cases hne : flashcards.isEmpty
    · rw [if_pos hne] at hmk
      exact absurd hmk (by simp)
    · rw [if_neg hne] at hmk
      have he : e = ⟨flashcards, st, [], SessionStats.start⟩ := by
        exact (Option.some.injEq _ _ ▸ hmk.symm : _)
      apply runSubmits_preserves_inv
      rw [he]
      exact ⟨rfl, rfl⟩
  · intro h
    refine ⟨?_, ?_, submit_preserves_inv card a h⟩
    · rcases has_next_frame o e with ⟨h1, h2, _⟩
      exact ⟨by rw [h2]; exact h.1, by rw [h1, h2]; exact h.2⟩
    · rcases get_next_frame o e with ⟨h1, h2⟩
      exact ⟨by rw [h2]; exact h.1, by rw [h1, h2]; exact h.2⟩

/-- Witness for engine_counts_invariant: a concrete one-card engine keeps
    the invariant through construction, two submissions and the question
    operations. -/
theorem engine_counts_invariant_witness :
    statsInv (runSubmits ⟨[⟨[65], [97]⟩], .seq, [], SessionStats.start⟩
      [(⟨[65], [97]⟩, [97]), (⟨[65], [97]⟩, [98])]) ∧
    statsInv (Engine.get_next ⟨[], []⟩
      ⟨[⟨[65], [97]⟩], .seq, [], SessionStats.start⟩).2 :=
  ⟨(engine_counts_invariant [⟨[65], [97]⟩] .seq
      [(⟨[65], [97]⟩, [97]), (⟨[65], [97]⟩, [98])]
      ⟨[⟨[65], [97]⟩], .seq, [], SessionStats.start⟩ ⟨[], []⟩
      ⟨[65], [97]⟩ [97]).1 rfl,
   ((engine_counts_invariant [⟨[65], [97]⟩] .seq []
      ⟨[⟨[65], [97]⟩], .seq, [], SessionStats.start⟩ ⟨[], []⟩
      ⟨[65], [97]⟩ [97]).2 ⟨rfl, rfl⟩).2.1⟩

lemma range_filterMap_get (l : List Flashcard) :
    (List.range l.length).filterMap (fun i => l[i]?) = l := by
  induction l with
  | nil => rfl
  | cons a t ih =>
    rw [List.length_cons, List.range_succ_eq_map, List.filterMap_cons,
      List.filterMap_map]
    have hcomp : ((fun i => (a :: t)[i]?) ∘ Nat.succ) = fun i => t[i]? := by
      funext i
      simp [Function.comp]
    rw [hcomp, ih]
    simp

lemma rand_run_step (perm : List Nat) (flashcards : List Flashcard)
    (ans : Flashcard → Str) (fuel : Nat) (results : List QuizResult)
    (hlt : results.length < flashcards.length) (i : Nat)
    (hgi : perm[results.length]? = some i) (c : Flashcard)
    (hgc : flashcards[i]? = some c) :
    rand_run_aux perm flashcards ans (fuel + 1) ⟨perm, true⟩ results
      = (c :: (rand_run_aux perm flashcards ans fuel ⟨perm, true⟩
            (results ++ [⟨c, ans c, check_answer c (ans c)⟩])).1,
         (rand_run_aux perm flashcards ans fuel ⟨perm, true⟩
            (results ++ [⟨c, ans c, check_answer c (ans c)⟩])).2) := by
  rw [rand_run_aux]
  have h1 : random_has_more perm ⟨perm, true⟩ flashcards results
      = (true, ⟨perm, true⟩) := by
    unfold random_has_more random_setup
    simp [hlt]
  rw [h1]
  dsimp only
  have h2 : random_get_next perm ⟨perm, true⟩ flashcards results
      = (some c, ⟨perm, true⟩) := by
    unfold random_get_next
    rw [show random_setup perm ⟨perm, true⟩ = (⟨perm, true⟩ : RState) from rfl]
    dsimp only
    rw [hgi]
    dsimp only
    rw [hgc]
  rw [h2]
  rw [if_pos rfl]

lemma rand_run_aux_inited (perm : List Nat) (flashcards : List Flashcard)
    (ans : Flashcard → Str) (hp : perm.length = flashcards.length)
    (hb : ∀ i ∈ perm, i < flashcards.length) :
    ∀ (fuel : Nat) (results : List QuizResult),
    results.length + fuel = flashcards.length →
    (rand_run_aux perm flashcards ans fuel ⟨perm, true⟩ results).1
      = (perm.drop results.length).filterMap (fun i => flashcards[i]?) := by
  intro fuel
  induction fuel with
  | zero =>
    intro results h
    have hlen : results.length = perm.length := by omega
    rw [rand_run_aux, hlen, List.drop_length]
    rfl
  | succ fuel ih =>
    intro results h
    have hlt : results.length < flashcards.length := by omega
    have hltp : results.length < perm.length := by omega
    have hgi : perm[results.length]? = some perm[results.length] :=
      List.getElem?_eq_getElem hltp
    have hilt : perm[results.length] < flashcards.length :=
      hb _ (List.getElem_mem hltp)
    have hgc : flashcards[perm[results.length]]?
        = some flashcards[perm[results.length]] :=
      List.getElem?_eq_getElem hilt
    rw [rand_run_step perm flashcards ans fuel results hlt _ hgi _ hgc]
    have hlen2 : (results ++ [(⟨flashcards[perm[results.length]],
        ans flashcards[perm[results.length]],
        check_answer flashcards[perm[results.length]]
          (ans flashcards[perm[results.length]])⟩ : QuizResult)]).length + fuel
        = flashcards.length := by
      simp only [List.length_append, List.length_cons, List.length_nil]
      omega
    rw [ih _ hlen2]
    simp only [List.length_append, List.length_cons, List.length_nil]
    rw [List.drop_eq_getElem_cons hltp, List.filterMap_cons]
    rw [hgc]

lemma rand_run_aux_fresh_fst (perm : List Nat) (flashcards : List Flashcard)
    (ans : Flashcard → Str) (fuel : Nat) (results : List QuizResult) :
    (rand_run_aux perm flashcards ans fuel RState.fresh results).1
      = (rand_run_aux perm flashcards ans fuel ⟨perm, true⟩ results).1 := by
  cases fuel with
  | zero => rfl
  | succ fuel => rfl

/-- C6: the Random strategy draws its index permutation once, on the first
    invocation of either operation, and never changes it afterwards
    regardless of later oracle draws; its next card is
    flashcards[shuffled_indices[len(results)]]; it reports more questions
    while len(results) is less than len(flashcards); and a full session on
    one instance whose oracle is a permutation of range(n) presents every
    card exactly once (as a permutation of the card list). -/
theorem random_strategy_spec (perm q : List Nat) (s : RState)
    (flashcards : List Flashcard) (ans : Flashcard → Str)
    (results : List QuizResult) :
    ((random_has_more q RState.fresh flashcards results).2 = ⟨q, true⟩ ∧
      (random_get_next q RState.fresh flashcards results).2 = ⟨q, true⟩) ∧
    (s.inited = true →
      (random_has_more q s flashcards results).2 = s ∧
      (random_get_next q s flashcards results).2 = s) ∧
    ((random_has_more q s flashcards results).1
      = decide (results.length < flashcards.length)) ∧
    (s.inited = true →
      (random_get_next q s flashcards results).1
        = (s.shuffled_indices[results.length]?).bind
            (fun i => flashcards[i]?)) ∧
    (perm.Perm (List.range flashcards.length) →
      (rand_run perm flashcards ans).1.Perm flashcards) := by
  refine ⟨⟨rfl, ?_⟩, ?_, rfl, ?_, ?_⟩
  · unfold random_get_next
    dsimp only
    split <;> rfl
  · intro hi
    have hsetup : random_setup q s = s := by
      unfold random_setup
      rw [if_pos hi]
    constructor
    · unfold random_has_more
      rw [hsetup]
    · unfold random_get_next
      rw [hsetup]
      dsimp only
      split <;> rfl
  · intro hi
    have hsetup : random_setup q s = s := by
      unfold random_setup
      rw [if_pos hi]
    unfold random_get_next
    rw [hsetup]
    dsimp only
    cases hm : s.shuffled_indices[results.length]? <;> rfl
  · intro hperm
    have hlen : perm.length = flashcards.length := by
      rw [hperm.length_eq, List.length_range]
    have hb : ∀ i ∈ perm, i < flashcards.length := by
      intro i hi
      have := hperm.mem_iff.mp hi
      simpa using this
    have h1 := rand_run_aux_inited perm flashcards ans hlen hb
      flashcards.length [] (by simp)
    rw [rand_run, rand_run_aux_fresh_fst, h1]
    simp only [List.length_nil, List.drop_zero]
    have h2 : (List.range flashcards.length).filterMap
        (fun i => flashcards[i]?) = flashcards := range_filterMap_get flashcards
    have h3 : (perm.filterMap fun i => flashcards[i]?).Perm
        ((List.range flashcards.length).filterMap fun i => flashcards[i]?) :=
      hperm.filterMap _
    rw [h2] at h3
    exact h3

/-- Witness for random_strategy_spec: with the concrete permutation [1, 0]
    on a two-card set, the full session presents both cards (a permutation
    of the card set), and a primed instance keeps its cached permutation. -/
theorem random_strategy_spec_witness :
    (rand_run [1, 0] [⟨[65], [97]⟩, ⟨[66], [98]⟩] (fun _ => [97])).1.Perm
      [⟨[65], [97]⟩, ⟨[66], [98]⟩] ∧
    (random_has_more [9, 9] ⟨[1, 0], true⟩ [⟨[65], [97]⟩, ⟨[66], [98]⟩] []).2
      = ⟨[1, 0], true⟩ :=
  ⟨(random_strategy_spec [1, 0] [] RState.fresh [⟨[65], [97]⟩, ⟨[66], [98]⟩]
      (fun _ => [97]) []).2.2.2.2 (by decide),
   ((random_strategy_spec [1, 0] [9, 9] ⟨[1, 0], true⟩
      [⟨[65], [97]⟩, ⟨[66], [98]⟩] (fun _ => [97]) []).2.1 rfl).1⟩

lemma foldCI_concat_eq (results : List QuizResult) :
    (match results.getLast? with
      | some r => foldStep ((foldCI results.dropLast).1, (foldCI results.dropLast).2) r
      | none => ((foldCI results.dropLast).1, (foldCI results.dropLast).2))
      = foldCI results := by
  rcases List.eq_nil_or_concat results with h | ⟨L, b, h⟩
  · rw [h]
    rfl
  · subst h
    rw [List.concat_eq_append, List.getLast?_concat, List.dropLast_concat]
    unfold foldCI
    rw [List.foldl_append, List.foldl_cons, List.foldl_nil, Prod.mk.eta]

/-- The AdaptiveStrategy instance state at a nextCard decision made under
    the Engine protocol: the pending list is set, and the tracking sets
    already reflect every outcome except the still-unseen last one. -/
def adaptiveMid (pending : List Flashcard) (results : List QuizResult) : AState :=
  ⟨(foldCI results.dropLast).1, (foldCI results.dropLast).2, pending, true⟩

/-- C5: at a nextCard decision whose tracking sets reflect all but the
    unseen tail of the log, get_next_flashcard folds that tail so the sets
    reflect the whole log, and then picks the first pending card whose term
    is in the incorrect set when that set is non-empty, otherwise the first
    pending card whose term is not in the correct-ever set, otherwise the
    first pending card as a fallback. -/
theorem adaptive_next_policy (sh flashcards pending : List Flashcard)
    (results : List QuizResult) :
    ((adaptive_get_next sh (adaptiveMid pending results) flashcards results).2
      = ⟨(foldCI results).1, (foldCI results).2, pending, true⟩) ∧
    ((foldCI results).2.Nonempty →
      ∀ c0, pending.find? (fun c => decide (c.term ∈ (foldCI results).2)) = some c0 →
      (adaptive_get_next sh (adaptiveMid pending results) flashcards results).1
        = some c0) ∧
    ((foldCI results).2 = ∅ →
      ∀ c0, pending.find? (fun c => decide (c.term ∉ (foldCI results).1)) = some c0 →
      (adaptive_get_next sh (adaptiveMid pending results) flashcards results).1
        = some c0) ∧
    ((foldCI results).2 = ∅ →
      pending.find? (fun c => decide (c.term ∉ (foldCI results).1)) = none →
      (adaptive_get_next sh (adaptiveMid pending results) flashcards results).1
        = pending.head?) := by
  have heq : adaptive_get_next sh (adaptiveMid pending results) flashcards results
      = (if (foldCI results).2 = ∅ then
          (match pending.find? (fun c => decide (c.term ∉ (foldCI results).1)) with
            | some c => some c
            | none => pending.head?)
        else
          match pending.find? (fun c => decide (c.term ∈ (foldCI results).2)) with
          | some c => some c
          | none =>
            match pending.find? (fun c => decide (c.term ∉ (foldCI results).1)) with
            | some c => some c
            | none => pending.head?,
        ⟨(foldCI results).1, (foldCI results).2, pending, true⟩) := by
    have hsetup : adaptive_setup sh (adaptiveMid pending results)
        = adaptiveMid pending results := rfl
    unfold adaptive_get_next
    rw [hsetup]
    dsimp only [adaptiveMid]
    rw [foldCI_concat_eq]
  rw [heq]
  refine ⟨rfl, ?_, ?_, ?_⟩
  · intro hne c0 hfind
    dsimp only
    rw [if_neg (Finset.nonempty_iff_ne_empty.mp hne), hfind]
  · intro hemp c0 hfind
    dsimp only
    rw [if_pos hemp, hfind]
  · intro hemp hfind
    dsimp only
    rw [if_pos hemp, hfind]

/-- Witness for adaptive_next_policy: after one miss on the only card, the
    incorrect set is non-empty and the card itself is served again. -/
theorem adaptive_next_policy_witness :
    (adaptive_get_next [⟨[65], [120]⟩]
        (adaptiveMid [⟨[65], [120]⟩] [⟨⟨[65], [120]⟩, [110], false⟩])
        [⟨[65], [120]⟩] [⟨⟨[65], [120]⟩, [110], false⟩]).1
      = some ⟨[65], [120]⟩ :=
  (adaptive_next_policy [⟨[65], [120]⟩] [⟨[65], [120]⟩] [⟨[65], [120]⟩]
      [⟨⟨[65], [120]⟩, [110], false⟩]).2.1 (by decide) ⟨[65], [120]⟩ (by decide)

lemma foldl_correct_mem (results : List QuizResult) : ∀ (C I : Finset Str) (t : Str),
    t ∈ (results.foldl foldStep (C, I)).1 →
    t ∈ C ∨ ∃ r ∈ results, r.flashcard.term = t := by
  induction results with
  | nil =>
    intro C I t ht
    exact Or.inl ht
  | cons r rs ih =>
    intro C I t ht
    rw [List.foldl_cons] at ht
    unfold foldStep at ht
    by_cases hr : r.is_correct = true
    · rw [if_pos hr] at ht
      dsimp only at ht
      rcases ih _ _ t ht with h1 | ⟨r2, hr2, ht2⟩
      · rcases Finset.mem_insert.mp h1 with h | h
        · exact Or.inr ⟨r, by simp, h.symm⟩
        · exact Or.inl h
      · exact Or.inr ⟨r2, by simp [hr2], ht2⟩
    · rw [if_neg hr] at ht
      dsimp only at ht
      rcases ih _ _ t ht with h1 | ⟨r2, hr2, ht2⟩
      · exact Or.inl h1
      · exact Or.inr ⟨r2, by simp [hr2], ht2⟩

/-- C1 counterexample: on a card set whose two cards share one term, a log
    in which that sole distinct term has a correct outcome still leaves
    has_more_questions true, because the code compares the size of the
    correct-terms set with the number of cards, duplicates included. -/
theorem adaptive_termination_cex :
    (∀ c ∈ [(⟨[65], [120]⟩ : Flashcard), ⟨[65], [121]⟩],
        c.term ∈ (foldCI [⟨⟨[65], [120]⟩, [120], true⟩]).1) ∧
    (adaptive_has_more [⟨[65], [120]⟩, ⟨[65], [121]⟩] AState.fresh
        [⟨[65], [120]⟩, ⟨[65], [121]⟩] [⟨⟨[65], [120]⟩, [120], true⟩]).1 = true := by
  decide

/-- C1 (amended): has_more_questions on a fresh Adaptive instance is true
    exactly while the number of terms with a correct outcome in the log is
    smaller than the number of cards (duplicates included); when the card
    terms are pairwise distinct and every logged card comes from the card
    set, this holds exactly when some card's term has no correct outcome
    yet. -/
theorem adaptive_termination_amended (sh flashcards : List Flashcard)
    (results : List QuizResult) :
    ((adaptive_has_more sh AState.fresh flashcards results).1
      = decide ((foldCI results).1.card < flashcards.length)) ∧
    ((flashcards.map Flashcard.term).Nodup →
      (∀ r ∈ results, r.flashcard ∈ flashcards) →
      ((adaptive_has_more sh AState.fresh flashcards results).1 = true ↔
        ∃ c ∈ flashcards, c.term ∉ (foldCI results).1)) := by
  have h0 : (adaptive_has_more sh AState.fresh flashcards results).1
      = decide ((foldCI results).1.card < flashcards.length) := rfl
  refine ⟨h0, ?_⟩
  intro hnd hin
  rw [h0, decide_eq_true_eq]
  have hsub : (foldCI results).1 ⊆ (flashcards.map Flashcard.term).toFinset := by
    intro t ht
    rcases foldl_correct_mem results ∅ ∅ t ht with h | ⟨r, hr, hterm⟩
    · exact absurd h (Finset.not_mem_empty t)
    · rw [List.mem_toFinset]
      exact hterm ▸ List.mem_map_of_mem Flashcard.term (hin r hr)
  have hcard : (flashcards.map Flashcard.term).toFinset.card = flashcards.length := by
    rw [List.toFinset_card_of_nodup hnd, List.length_map]
  constructor
  · intro hlt
    have hne : (foldCI results).1 ≠ (flashcards.map Flashcard.term).toFinset := by
      intro hEq
      rw [hEq, hcard] at hlt
      exact absurd hlt (lt_irrefl _)
    have hss : (foldCI results).1 ⊂ (flashcards.map Flashcard.term).toFinset :=
      Finset.ssubset_iff_subset_ne.mpr ⟨hsub, hne⟩
    rcases (Finset.ssubset_iff_of_subset hsub).mp hss with ⟨t, htT, htC⟩
    rw [List.mem_toFinset, List.mem_map] at htT
    rcases htT with ⟨c, hc, hct⟩
    exact ⟨c, hc, hct ▸ htC⟩
  · rintro ⟨c, hc, hct⟩
    have htT : c.term ∈ (flashcards.map Flashcard.term).toFinset := by
      rw [List.mem_toFinset]
      exact List.mem_map_of_mem Flashcard.term hc
    have hss : (foldCI results).1 ⊂ (flashcards.map Flashcard.term).toFinset :=
      (Finset.ssubset_iff_of_subset hsub).mpr ⟨c.term, htT, hct⟩
    have hlt := Finset.card_lt_card hss
    rw [hcard] at hlt
    exact hlt

/-- Witness for adaptive_termination_amended: on a two-card set with
    distinct terms and one correct outcome, the strategy still has more
    questions because the second term lacks a correct outcome. -/
theorem adaptive_termination_amended_witness :
    (adaptive_has_more [⟨[65], [120]⟩, ⟨[66], [121]⟩] AState.fresh
        [⟨[65], [120]⟩, ⟨[66], [121]⟩] [⟨⟨[65], [120]⟩, [120], true⟩]).1 = true :=
  ((adaptive_termination_amended [⟨[65], [120]⟩, ⟨[66], [121]⟩]
      [⟨[65], [120]⟩, ⟨[66], [121]⟩] [⟨⟨[65], [120]⟩, [120], true⟩]).2
    (by decide) (by decide)).mpr ⟨⟨[66], [121]⟩, by decide, by decide⟩

end FlashcardQuizzer
